import Mathlib

/-!
Verification model of the sliding-window rate limiter in
`app/utils/rate_limiter.py` (classes `RateLimiter` and `AdvancedRateLimiter`).

Timestamps (Python `time.time()` floats) are modelled as rationals; Python
integers as `Int`.  The Python dictionaries (`request_history`, `limiters`,
`client_tiers`) are modelled as association lists in insertion order, which
matches `dict`/`defaultdict` semantics for the states reachable through the
API (keys are unique there).  Mutating methods are modelled by explicit
state passing: each returns its result paired with the successor state.
-/

namespace RateLimiterModel

/-- Association-list lookup, modelling Python `d[k]` / `k in d`. -/
def lookupEntry {α : Type} : List (String × α) → String → Option α
  | [], _ => none
  | (k, v) :: rest, c => if k = c then some v else lookupEntry rest c

/-- Association-list update, modelling Python `d[k] = v` (and the entry a
`defaultdict` materializes on access): replaces the value at an existing key,
otherwise appends the new binding at the end. -/
def setEntry {α : Type} : List (String × α) → String → α → List (String × α)
  | [], c, v => [(c, v)]
  | (k, w) :: rest, c, v =>
      if k = c then (c, v) :: rest else (k, w) :: setEntry rest c v

/-- Association-list deletion, modelling Python `del d[k]` (dict keys are
unique, so dropping every binding of the key is the same operation). -/
def eraseEntry {α : Type} (h : List (String × α)) (c : String) : List (String × α) :=
  h.filter (fun p => decide (p.1 ≠ c))

/-- The head-trimming loop shared by `allow_request`, `get_client_status` and
`cleanup_old_entries`:
`while client_requests and client_requests[0] <= cutoff: popleft()`. -/
def trimOld (cutoff : ℚ) : List ℚ → List ℚ
  | [] => []
  | t :: rest => if t ≤ cutoff then trimOld cutoff rest else t :: rest

/-- State of `RateLimiter`: the two configuration fields stored by
`__init__` and the `request_history` dictionary. -/
structure RateLimiter where
  max_requests : Int
  time_window : ℚ
  request_history : List (String × List ℚ)
  deriving Repr, DecidableEq

/-- `RateLimiter.__init__(max_requests, time_window)`: stores both values
unchecked (the source performs no validation and cannot fail) and starts
with an empty history. -/
def initRateLimiter (maxRequests : Int) (timeWindow : ℚ) : RateLimiter :=
  { max_requests := maxRequests, time_window := timeWindow, request_history := [] }

/-- The client's stored timestamp sequence; `defaultdict` yields an empty
deque for an unseen client. -/
def clientEntry (rl : RateLimiter) (c : String) : List ℚ :=
  (lookupEntry rl.request_history c).getD []

/-- `RateLimiter.allow_request(client_id)` at time `now`: trim stale
timestamps from the head, reject when the remaining count has reached
`max_requests`, otherwise record `now` and accept.  The accessed (possibly
fresh) entry is stored back in either case. -/
def allowRequest (rl : RateLimiter) (clientId : String) (now : ℚ) :
    Bool × RateLimiter :=
  let trimmed := trimOld (now - rl.time_window) (clientEntry rl clientId)
  if rl.max_requests ≤ (trimmed.length : Int) then
    (false, { rl with request_history := setEntry rl.request_history clientId trimmed })
  else
    (true, { rl with request_history := setEntry rl.request_history clientId (trimmed ++ [now]) })

/-- The dictionary returned by `RateLimiter.get_client_status`. -/
structure ClientStatus where
  client_id : String
  requests_used : Nat
  requests_remaining : Int
  max_requests : Int
  time_window : ℚ
  reset_time : Option ℚ
  is_limited : Bool
  deriving Repr, DecidableEq

/-- `RateLimiter.get_client_status(client_id)` at time `now`: performs the
same trim as `allow_request` (mutating the stored entry) and reports the
post-trim usage figures. -/
def getClientStatus (rl : RateLimiter) (clientId : String) (now : ℚ) :
    ClientStatus × RateLimiter :=
  let trimmed := trimOld (now - rl.time_window) (clientEntry rl clientId)
  let requests_used := trimmed.length
  ({ client_id := clientId
     requests_used := requests_used
     requests_remaining := max 0 (rl.max_requests - requests_used)
     max_requests := rl.max_requests
     time_window := rl.time_window
     reset_time := trimmed.head?.map (fun t => t + rl.time_window)
     is_limited := rl.max_requests ≤ (requests_used : Int) },
   { rl with request_history := setEntry rl.request_history clientId trimmed })

/-- `RateLimiter.reset_client(client_id)`: delete the client's history if
present, reporting whether it was present. -/
def resetClient (rl : RateLimiter) (clientId : String) : Bool × RateLimiter :=
  if (lookupEntry rl.request_history clientId).isSome then
    (true, { rl with request_history := eraseEntry rl.request_history clientId })
  else
    (false, rl)

/-- `RateLimiter.cleanup_old_entries()` at time `now`: trim every client's
sequence, collect the clients whose sequence became empty, then delete
those clients. -/
def cleanupOldEntries (rl : RateLimiter) (now : ℚ) : RateLimiter :=
  let trimmedAll := rl.request_history.map
    (fun p => (p.1, trimOld (now - rl.time_window) p.2))
  let clientsToRemove := (trimmedAll.filter (fun p => p.2.isEmpty)).map Prod.fst
  { rl with request_history :=
      trimmedAll.filter (fun p => !(clientsToRemove.contains p.1)) }

/-- The dictionary returned by `RateLimiter.get_stats`. -/
structure Stats where
  total_clients : Nat
  active_clients : Nat
  limited_clients : Nat
  total_requests_tracked : Nat
  max_requests_per_window : Int
  time_window_seconds : ℚ
  deriving Repr, DecidableEq

/-- The loop body of `get_stats`: bump the active count when the client has
a recent (strictly inside-window) timestamp, and additionally the limited
count when the recent count reaches `max_requests`. -/
def statsStep (rl : RateLimiter) (now : ℚ) (acc : Nat × Nat) (ts : List ℚ) :
    Nat × Nat :=
  let recent := ts.filter (fun r => decide (now - rl.time_window < r))
  if recent.isEmpty then acc
  else if rl.max_requests ≤ (recent.length : Int) then (acc.1 + 1, acc.2 + 1)
  else (acc.1 + 1, acc.2)

/-- `RateLimiter.get_stats()` at time `now`: a read-only aggregate over the
untrimmed history (total counts), with active/limited counts computed over
strictly-recent timestamps only.  The state is returned unchanged. -/
def getStats (rl : RateLimiter) (now : ℚ) : Stats × RateLimiter :=
  let counts := rl.request_history.foldl
    (fun acc p => statsStep rl now acc p.2) (0, 0)
  ({ total_clients := rl.request_history.length
     active_clients := counts.1
     limited_clients := counts.2
     total_requests_tracked := (rl.request_history.map (fun p => p.2.length)).sum
     max_requests_per_window := rl.max_requests
     time_window_seconds := rl.time_window },
   rl)

/-- Errors raised by the limiter layer: `unknownTier` models the
`ValueError("Tier ... not found")` raised by `set_client_tier` (the spec's
`UnknownTierError`), `keyError` the `KeyError` a lookup of an absent tier
name would raise in `allow_request`. -/
inductive LimiterError where
  | unknownTier (tierName : String)
  | keyError (key : String)
  deriving Repr, DecidableEq

/-- State of `AdvancedRateLimiter`: named tier limiters and the
client-to-tier-name assignment. -/
structure AdvancedRateLimiter where
  limiters : List (String × RateLimiter)
  client_tiers : List (String × String)
  deriving Repr, DecidableEq

/-- `AdvancedRateLimiter.__init__()`: both dictionaries start empty. -/
def initAdvanced : AdvancedRateLimiter :=
  { limiters := [], client_tiers := [] }

/-- `AdvancedRateLimiter.add_tier(tier_name, max_requests, time_window)`:
installs a fresh limiter under the tier name, replacing any existing one. -/
def addTier (arl : AdvancedRateLimiter) (tierName : String) (maxRequests : Int)
    (timeWindow : ℚ) : AdvancedRateLimiter :=
  { arl with limiters := setEntry arl.limiters tierName (initRateLimiter maxRequests timeWindow) }

/-- `AdvancedRateLimiter.set_client_tier(client_id, tier_name)`: raises
(`unknownTier`, leaving the state untouched) when the tier name is not
registered, otherwise records the assignment. -/
def setClientTier (arl : AdvancedRateLimiter) (clientId tierName : String) :
    Except LimiterError Unit × AdvancedRateLimiter :=
  if (lookupEntry arl.limiters tierName).isSome then
    (Except.ok (), { arl with client_tiers := setEntry arl.client_tiers clientId tierName })
  else
    (Except.error (LimiterError.unknownTier tierName), arl)

/-- `AdvancedRateLimiter.allow_request(client_id)` at time `now`: resolve
the tier name (assigned tier, else `"default"`), lazily register the
`"default"` tier with the 60-per-60-seconds policy when the resolved name is
unregistered, then delegate to the resolved tier's limiter.  The `keyError`
branch mirrors `self.limiters[tier_name]` failing when the resolved name is
still absent after the default was added. -/
def advAllowRequest (arl : AdvancedRateLimiter) (clientId : String) (now : ℚ) :
    Except LimiterError Bool × AdvancedRateLimiter :=
  let tierName := (lookupEntry arl.client_tiers clientId).getD "default"
  let arl1 := if (lookupEntry arl.limiters tierName).isSome then arl
              else addTier arl "default" 60 60
  match lookupEntry arl1.limiters tierName with
  | some lim =>
      let r := allowRequest lim clientId now
      (Except.ok r.1, { arl1 with limiters := setEntry arl1.limiters tierName r.2 })
  | none => (Except.error (LimiterError.keyError tierName), arl1)

/-- Run a whole trace of `allow_request` calls (client, time) against a
limiter, recording each call together with its boolean outcome. -/
def runTrace (rl : RateLimiter) : List (String × ℚ) → RateLimiter × List ((String × ℚ) × Bool)
  | [] => (rl, [])
  | e :: es =>
      let r := allowRequest rl e.1 e.2
      let rest := runTrace r.2 es
      (rest.1, (e, r.1) :: rest.2)

/-- The times of the calls of client `c` that were admitted, in call order. -/
def admittedTimes (c : String) : List ((String × ℚ) × Bool) → List ℚ
  | [] => []
  | r :: rest =>
      if r.1.1 = c ∧ r.2 = true then r.1.2 :: admittedTimes c rest
      else admittedTimes c rest

/-- One public `RateLimiter` operation, as a step between states. -/
inductive RLStep : RateLimiter → RateLimiter → Prop where
  | allow (rl : RateLimiter) (c : String) (now : ℚ) : RLStep rl (allowRequest rl c now).2
  | status (rl : RateLimiter) (c : String) (now : ℚ) : RLStep rl (getClientStatus rl c now).2
  | reset (rl : RateLimiter) (c : String) : RLStep rl (resetClient rl c).2
  | cleanup (rl : RateLimiter) (now : ℚ) : RLStep rl (cleanupOldEntries rl now)
  | stats (rl : RateLimiter) (now : ℚ) : RLStep rl (getStats rl now).2

/-- States reachable from a freshly constructed limiter through any
sequence of public operations. -/
inductive RLReachable (m : Int) (w : ℚ) : RateLimiter → Prop where
  | init : RLReachable m w (initRateLimiter m w)
  | step {rl rl' : RateLimiter} : RLReachable m w rl → RLStep rl rl' → RLReachable m w rl'

section AssocLemmas

variable {α : Type}

theorem lookupEntry_setEntry_self (h : List (String × α)) (c : String) (v : α) :
    lookupEntry (setEntry h c v) c = some v := by
  induction h with
  | nil => simp [setEntry, lookupEntry]
  | cons p rest ih =>
      by_cases hk : p.1 = c
      · simp [setEntry, hk, lookupEntry]
      · simp [setEntry, hk, lookupEntry, ih]

theorem lookupEntry_setEntry_ne (h : List (String × α)) (c c' : String) (v : α)
    (hne : c ≠ c') : lookupEntry (setEntry h c v) c' = lookupEntry h c' := by
  induction h with
  | nil => simp [setEntry, lookupEntry, hne]
  | cons p rest ih =>
      by_cases hk : p.1 = c
      · subst hk
        simp [setEntry, lookupEntry, hne, ih]
      · have h2 : c' ≠ c := Ne.symm hne
        by_cases hk' : p.1 = c'
        · simp [setEntry, hk, lookupEntry, hk', h2]
        · simp [setEntry, hk, lookupEntry, hk', ih]

theorem mem_setEntry {h : List (String × α)} {c : String} {v : α} {p : String × α}
    (hp : p ∈ setEntry h c v) : p = (c, v) ∨ p ∈ h := by
  induction h with
  | nil => simpa [setEntry] using hp
  | cons q rest ih =>
      by_cases hk : q.1 = c
      · rcases (by simpa [setEntry, hk] using hp) with h1 | h1
        · exact Or.inl h1
        · exact Or.inr (List.mem_cons_of_mem _ h1)
      · rcases (by simpa [setEntry, hk] using hp) with h1 | h1
        · exact Or.inr (by simp [h1])
        · rcases ih h1 with h2 | h2
          · exact Or.inl h2
          · exact Or.inr (List.mem_cons_of_mem _ h2)

theorem lookupEntry_mem {h : List (String × α)} {c : String} {v : α}
    (hv : lookupEntry h c = some v) : (c, v) ∈ h := by
  induction h with
  | nil => simp [lookupEntry] at hv
  | cons q rest ih =>
      obtain ⟨k, w⟩ := q
      by_cases hk : k = c
      · have hw : w = v := by simpa [lookupEntry, hk] using hv
        subst hk; subst hw
        exact List.mem_cons_self _ _
      · exact List.mem_cons_of_mem _ (ih (by simpa [lookupEntry, hk] using hv))

theorem lookupEntry_eraseEntry_self (h : List (String × α)) (c : String) :
    lookupEntry (eraseEntry h c) c = none := by
  induction h with
  | nil => simp [eraseEntry, lookupEntry]
  | cons q rest ih =>
      by_cases hk : q.1 = c
      · simpa [eraseEntry, hk] using ih
      · simpa [eraseEntry, hk, lookupEntry] using ih

end AssocLemmas

section TrimLemmas

/-- The trim loop only ever removes a stale prefix: the original sequence is
some all-stale prefix followed by the trimmed remainder. -/
theorem trimOld_decomp (cutoff : ℚ) (l : List ℚ) :
    ∃ d, l = d ++ trimOld cutoff l ∧ ∀ s ∈ d, s ≤ cutoff := by
  induction l with
  | nil => exact ⟨[], by simp [trimOld]⟩
  | cons t rest ih =>
      by_cases ht : t ≤ cutoff
      · obtain ⟨d, hd, hds⟩ := ih
        refine ⟨t :: d, ?_, ?_⟩
        · simp [trimOld, ht]
          exact hd
        · intro s hs
          rcases List.mem_cons.mp hs with h1 | h1
          · simpa [h1] using ht
          · exact hds s h1
      · exact ⟨[], by simp [trimOld, ht]⟩

theorem trimOld_length_le (cutoff : ℚ) (l : List ℚ) :
    (trimOld cutoff l).length ≤ l.length := by
  obtain ⟨d, hd, -⟩ := trimOld_decomp cutoff l
  have h1 : l.length = d.length + (trimOld cutoff l).length := by
    conv_lhs => rw [hd]
    simp
  omega

/-- Elements strictly beyond the cutoff are never removed by the trim loop,
so their count is bounded by the trimmed length. -/
theorem countP_lt_le_trimOld_length (cutoff : ℚ) (l : List ℚ) :
    l.countP (fun s => decide (cutoff < s)) ≤ (trimOld cutoff l).length := by
  induction l with
  | nil => simp [trimOld]
  | cons t rest ih =>
      by_cases ht : t ≤ cutoff
      · have : ¬ cutoff < t := not_lt.mpr ht
        simpa [trimOld, ht, List.countP_cons, this] using ih
      · simp only [trimOld, if_neg ht]
        calc (t :: rest).countP (fun s => decide (cutoff < s))
            ≤ (t :: rest).length := List.countP_le_length _
          _ = (t :: rest).length := rfl

/-- The trim loop empties a sequence whose elements are all stale. -/
theorem trimOld_eq_nil (cutoff : ℚ) (l : List ℚ) (h : ∀ t ∈ l, t ≤ cutoff) :
    trimOld cutoff l = [] := by
  induction l with
  | nil => rfl
  | cons t rest ih =>
      have ht : t ≤ cutoff := h t (by simp)
      simpa [trimOld, ht] using ih (fun s hs => h s (List.mem_cons_of_mem _ hs))

/-- The trim loop is `List.dropWhile` with the staleness predicate. -/
theorem trimOld_eq_dropWhile (cutoff : ℚ) (l : List ℚ) :
    trimOld cutoff l = l.dropWhile (fun t => decide (t ≤ cutoff)) := by
  induction l with
  | nil => rfl
  | cons t rest ih =>
      by_cases ht : t ≤ cutoff
      · simpa [trimOld, ht, List.dropWhile_cons, ht] using ih
      · simp [trimOld, ht, List.dropWhile_cons]

end TrimLemmas

section AllowLemmas

/-- The client's entry after the trim performed by `allow_request` at `now`. -/
def postTrim (rl : RateLimiter) (c : String) (now : ℚ) : List ℚ :=
  trimOld (now - rl.time_window) (clientEntry rl c)

/-- The entry `allow_request` stores back: the trimmed sequence, with `now`
appended exactly when the request is admitted. -/
def newEntry (rl : RateLimiter) (c : String) (now : ℚ) : List ℚ :=
  if ((postTrim rl c now).length : Int) < rl.max_requests
  then postTrim rl c now ++ [now]
  else postTrim rl c now

/-- Closed-form characterization of one `allow_request` call. -/
theorem allowRequest_eq (rl : RateLimiter) (c : String) (now : ℚ) :
    allowRequest rl c now =
      (decide (((postTrim rl c now).length : Int) < rl.max_requests),
       { rl with request_history := setEntry rl.request_history c (newEntry rl c now) }) := by
  by_cases hc : rl.max_requests ≤ ((trimOld (now - rl.time_window) (clientEntry rl c)).length : Int)
  · have h2 := not_lt.mpr hc
    simp [allowRequest, newEntry, postTrim, hc, h2]
  · have h2 := not_le.mp hc
    simp [allowRequest, newEntry, postTrim, hc, h2]

theorem allowRequest_max (rl : RateLimiter) (c : String) (now : ℚ) :
    (allowRequest rl c now).2.max_requests = rl.max_requests := by
  rw [allowRequest_eq]

theorem allowRequest_window (rl : RateLimiter) (c : String) (now : ℚ) :
    (allowRequest rl c now).2.time_window = rl.time_window := by
  rw [allowRequest_eq]

/-- Calls of a different client never touch this client's stored entry. -/
theorem clientEntry_allowRequest_ne (rl : RateLimiter) (c' : String) (now : ℚ)
    (c : String) (h : c' ≠ c) :
    clientEntry (allowRequest rl c' now).2 c = clientEntry rl c := by
  rw [allowRequest_eq]
  show (lookupEntry (setEntry rl.request_history c' (newEntry rl c' now)) c).getD [] = _
  rw [lookupEntry_setEntry_ne _ _ _ _ h]
  rfl

theorem clientEntry_allowRequest_self (rl : RateLimiter) (c : String) (now : ℚ) :
    clientEntry (allowRequest rl c now).2 c = newEntry rl c now := by
  rw [allowRequest_eq]
  show (lookupEntry (setEntry rl.request_history c (newEntry rl c now)) c).getD [] = _
  rw [lookupEntry_setEntry_self]
  rfl

end AllowLemmas

section BoundedAdmission

/-- `GoodSplits W m L` says: at each position `t` of `L`, fewer than `m`
earlier elements lie strictly inside the window `(t - W, t]`-wise (strictly
above `t - W`).  For the list of admitted request times this is exactly what
the trim-then-count-then-append algorithm enforces. -/
def GoodSplits (W : ℚ) (mN : Nat) (L : List ℚ) : Prop :=
  ∀ L1 t L2, L = L1 ++ t :: L2 → L1.countP (fun s => decide (t - W < s)) < mN

theorem goodSplits_nil (W : ℚ) (mN : Nat) : GoodSplits W mN [] := by
  intro L1 t L2 h
  exact absurd h (by simp)

theorem GoodSplits.append_singleton {W : ℚ} {mN : Nat} {A : List ℚ} {t : ℚ}
    (hA : GoodSplits W mN A)
    (hcount : A.countP (fun s => decide (t - W < s)) < mN) :
    GoodSplits W mN (A ++ [t]) := by
  intro L1 u L2 hsplit
  rcases List.eq_nil_or_concat L2 with h2 | ⟨M, b, h2⟩
  · subst h2
    obtain ⟨hA1, hA2⟩ := List.append_inj' hsplit rfl
    have hu : t = u := by simpa using hA2
    subst hA1
    exact hu ▸ hcount
  · subst h2
    have hsplit' : A ++ [t] = (L1 ++ u :: M) ++ [b] := by
      rw [hsplit]; simp
    obtain ⟨hA1, hA2⟩ := List.append_inj' hsplit' rfl
    exact hA L1 u M hA1

/-- Counting admissions inside one concrete window `[a, a + W)`:
any list whose splits are all good contains at most `mN` elements there. -/
theorem countP_window_le (W a : ℚ) (mN : Nat) (L : List ℚ)
    (h : GoodSplits W mN L) :
    L.countP (fun s => decide (a ≤ s ∧ s < a + W)) ≤ mN := by
  induction L using List.reverseRecOn with
  | nil => simp
  | append_singleton L' t ih =>
      by_cases hin : a ≤ t ∧ t < a + W
      · have hmono : ∀ s ∈ L', decide (a ≤ s ∧ s < a + W) = true →
            decide (t - W < s) = true := by
          intro s _ hs
          rw [decide_eq_true_iff] at hs ⊢
          linarith [hs.1, hin.2]
        have h1 : L'.countP (fun s => decide (a ≤ s ∧ s < a + W)) ≤
            L'.countP (fun s => decide (t - W < s)) :=
          List.countP_mono_left hmono
        have h2 := h L' t [] (by simp)
        have h3 : (L' ++ [t]).countP (fun s => decide (a ≤ s ∧ s < a + W)) =
            L'.countP (fun s => decide (a ≤ s ∧ s < a + W)) + 1 := by
          simp [List.countP_append, List.countP_cons, hin]
        omega
      · have hG : GoodSplits W mN L' := by
          intro L1 u L2 hs
          exact h L1 u (L2 ++ [t]) (by rw [hs]; simp)
        have h3 : (L' ++ [t]).countP (fun s => decide (a ≤ s ∧ s < a + W)) =
            L'.countP (fun s => decide (a ≤ s ∧ s < a + W)) := by
          simp [List.countP_append, List.countP_cons, hin]
        rw [h3]
        exact ih hG

/-- Main invariant induction for the bounded-admission theorem.  `A` is the
list of this client's admitted times so far, decomposed as a stale prefix
`D` (stale with respect to every future call) followed by the client's
currently stored entry. -/
theorem runTrace_goodSplits (W : ℚ) (mN : Nat) (tr : List (String × ℚ)) :
    ∀ (rl : RateLimiter) (c : String) (A D : List ℚ),
      rl.max_requests = (mN : Int) → rl.time_window = W →
      tr.Pairwise (fun e f => e.2 ≤ f.2) →
      A = D ++ clientEntry rl c →
      (∀ s ∈ D, ∀ e ∈ tr, e.1 = c → s ≤ e.2 - W) →
      GoodSplits W mN A →
      GoodSplits W mN (A ++ admittedTimes c (runTrace rl tr).2) := by
  induction tr with
  | nil =>
      intro rl c A D _ _ _ _ _ hG
      simpa [runTrace, admittedTimes] using hG
  | cons e tr' ih =>
      obtain ⟨c', t⟩ := e
      intro rl c A D hm hw hmono hAD hstale hG
      rw [List.pairwise_cons] at hmono
      obtain ⟨hfut, hmono'⟩ := hmono
      have hrun : (runTrace rl ((c', t) :: tr')).2 =
          ((c', t), (allowRequest rl c' t).1) :: (runTrace (allowRequest rl c' t).2 tr').2 := rfl
      by_cases hcc : c' = c
      · subst hcc
        obtain ⟨dnew, hdnew, hdnews⟩ :=
          trimOld_decomp (t - W) (clientEntry rl c')
        have htrim : postTrim rl c' t = trimOld (t - W) (clientEntry rl c') := by
          unfold postTrim
          rw [hw]
        have hcount0 : A.countP (fun s => decide (t - W < s)) ≤
            (trimOld (t - W) (clientEntry rl c')).length := by
          have hD : D.countP (fun s => decide (t - W < s)) = 0 := by
            rw [List.countP_eq_zero]
            intro s hs
            have := hstale s hs (c', t) (by simp) rfl
            simp only [decide_eq_true_iff]
            intro hlt
            exact absurd this (not_le.mpr hlt)
          have hent : (clientEntry rl c').countP (fun s => decide (t - W < s)) ≤
              (trimOld (t - W) (clientEntry rl c')).length :=
            countP_lt_le_trimOld_length _ _
          rw [hAD, List.countP_append, hD]
          omega
        have hAD2 : A = D ++ (dnew ++ trimOld (t - W) (clientEntry rl c')) :=
          hAD.trans (congrArg (fun l => D ++ l) hdnew)
        have hAD3 : A = (D ++ dnew) ++ trimOld (t - W) (clientEntry rl c') := by
          rw [hAD2, List.append_assoc]
        have hstale' : ∀ s ∈ D ++ dnew, ∀ e ∈ tr', e.1 = c' → s ≤ e.2 - W := by
          intro s hs e he hec
          rcases List.mem_append.mp hs with h1 | h1
          · exact hstale s h1 e (List.mem_cons_of_mem _ he) hec
          · have h2 : t ≤ e.2 := hfut e he
            have h3 := hdnews s h1
            linarith
        by_cases hadm :
            ((trimOld (t - W) (clientEntry rl c')).length : Int) < rl.max_requests
        · -- admitted: the time is appended to the entry and to the run record
          have hbool : (allowRequest rl c' t).1 = true := by
            rw [allowRequest_eq]
            show decide (((postTrim rl c' t).length : Int) < rl.max_requests) = true
            rw [htrim]
            exact decide_eq_true hadm
          have hlen : (trimOld (t - W) (clientEntry rl c')).length < mN := by
            rw [hm] at hadm
            exact_mod_cast hadm
          have hcount : A.countP (fun s => decide (t - W < s)) < mN :=
            lt_of_le_of_lt hcount0 hlen
          have hentry : clientEntry (allowRequest rl c' t).2 c' =
              trimOld (t - W) (clientEntry rl c') ++ [t] := by
            rw [clientEntry_allowRequest_self]
            unfold newEntry
            rw [htrim, if_pos hadm]
          have hAD' : A ++ [t] = (D ++ dnew) ++ clientEntry (allowRequest rl c' t).2 c' := by
            rw [hentry, hAD3, List.append_assoc]
          have hG' : GoodSplits W mN (A ++ [t]) := hG.append_singleton hcount
          have hmain := ih (allowRequest rl c' t).2 c' (A ++ [t]) (D ++ dnew)
            (by rw [allowRequest_max, hm]) (by rw [allowRequest_window, hw])
            hmono' hAD' hstale' hG'
          have hadmits : admittedTimes c'
              (((c', t), (allowRequest rl c' t).1) :: (runTrace (allowRequest rl c' t).2 tr').2) =
              t :: admittedTimes c' (runTrace (allowRequest rl c' t).2 tr').2 := by
            simp [admittedTimes, hbool]
          have hassoc : A ++ t :: admittedTimes c' (runTrace (allowRequest rl c' t).2 tr').2 =
              (A ++ [t]) ++ admittedTimes c' (runTrace (allowRequest rl c' t).2 tr').2 := by
            simp
          rw [hrun, hadmits, hassoc]
          exact hmain
        · -- rejected: nothing appended anywhere
          have hbool : (allowRequest rl c' t).1 = false := by
            rw [allowRequest_eq]
            show decide (((postTrim rl c' t).length : Int) < rl.max_requests) = false
            rw [htrim]
            exact decide_eq_false hadm
          have hentry : clientEntry (allowRequest rl c' t).2 c' =
              trimOld (t - W) (clientEntry rl c') := by
            rw [clientEntry_allowRequest_self]
            unfold newEntry
            rw [htrim, if_neg hadm]
          have hAD' : A = (D ++ dnew) ++ clientEntry (allowRequest rl c' t).2 c' := by
            rw [hentry]
            exact hAD3
          have hmain := ih (allowRequest rl c' t).2 c' A (D ++ dnew)
            (by rw [allowRequest_max, hm]) (by rw [allowRequest_window, hw])
            hmono' hAD' hstale' hG
          have hadmits : admittedTimes c'
              (((c', t), (allowRequest rl c' t).1) :: (runTrace (allowRequest rl c' t).2 tr').2) =
              admittedTimes c' (runTrace (allowRequest rl c' t).2 tr').2 := by
            simp [admittedTimes, hbool]
          rw [hrun, hadmits]
          exact hmain
      · -- a different client's call: this client's entry is untouched
        have hAD' : A = D ++ clientEntry (allowRequest rl c' t).2 c := by
          rw [clientEntry_allowRequest_ne _ _ _ _ hcc]
          exact hAD
        have hstale' : ∀ s ∈ D, ∀ e ∈ tr', e.1 = c → s ≤ e.2 - W := by
          intro s hs e he hec
          exact hstale s hs e (List.mem_cons_of_mem _ he) hec
        have hmain := ih (allowRequest rl c' t).2 c A D
          (by rw [allowRequest_max, hm]) (by rw [allowRequest_window, hw])
          hmono' hAD' hstale' hG
        have hadmits : admittedTimes c
            (((c', t), (allowRequest rl c' t).1) :: (runTrace (allowRequest rl c' t).2 tr').2) =
            admittedTimes c (runTrace (allowRequest rl c' t).2 tr').2 := by
          simp [admittedTimes, hcc]
        rw [hrun, hadmits]
        exact hmain

end BoundedAdmission

section StatusLemmas

/-- The trim as the spec words it: drop from the head of the stored
sequence every timestamp at or below `now - window_seconds`. -/
def specTrim (rl : RateLimiter) (c : String) (now : ℚ) : List ℚ :=
  ((lookupEntry rl.request_history c).getD []).dropWhile
    (fun t => decide (t ≤ now - rl.time_window))

/-- The source's trim loop computes exactly the spec's head-drop. -/
theorem postTrim_eq_specTrim (rl : RateLimiter) (c : String) (now : ℚ) :
    postTrim rl c now = specTrim rl c now :=
  trimOld_eq_dropWhile _ _

theorem getClientStatus_snd (rl : RateLimiter) (c : String) (now : ℚ) :
    (getClientStatus rl c now).2 =
      { rl with request_history := setEntry rl.request_history c (postTrim rl c now) } :=
  rfl

end StatusLemmas

/-- C2: `allow_request(client_id)` at time `now` first drops from the head
of the client's stored sequence every timestamp `≤ now - window`; if the
remaining count has reached `max_requests` it returns `false` without
appending, otherwise it appends `now` at the tail and returns `true`; the
(possibly freshly created, initially empty) entry is present in the map
afterwards even for a previously unseen client. -/
theorem C2_allow_request_step (rl : RateLimiter) (c : String) (now : ℚ) :
    (allowRequest rl c now).1 =
      decide (((specTrim rl c now).length : Int) < rl.max_requests) ∧
    lookupEntry (allowRequest rl c now).2.request_history c =
      some (if ((specTrim rl c now).length : Int) < rl.max_requests
            then specTrim rl c now ++ [now]
            else specTrim rl c now) := by
  have hd : postTrim rl c now = specTrim rl c now := postTrim_eq_specTrim rl c now
  constructor
  · rw [allowRequest_eq]
    dsimp only
    rw [hd]
  · rw [allowRequest_eq]
    dsimp only
    rw [lookupEntry_setEntry_self]
    unfold newEntry
    rw [hd]

/-- C3: the claim says constructing with non-positive `max_requests` or
`time_window` fails with a `ConfigurationError`; the source's `__init__`
has no validation and no error path at all — it stores the offending values
unchanged and yields a working (always-rejecting, for `max_requests ≤ 0`)
limiter. -/
theorem C3_init_accepts_nonpositive :
    initRateLimiter 0 1 =
      { max_requests := 0, time_window := 1, request_history := [] } ∧
    initRateLimiter (-3) 0 =
      { max_requests := -3, time_window := 0, request_history := [] } ∧
    (allowRequest (initRateLimiter 0 1) "client" 5).1 = false :=
  ⟨rfl, rfl, rfl⟩

/-- C6: `get_client_status` trims the stored sequence exactly as
`allow_request` does and stores the trimmed sequence back (a mutating
query); the returned status reports the post-trim count, the remaining
quota `max(0, max_requests - used)`, the configured limits, the reset time
`oldest remaining + window` (none when nothing remains), and
`is_limited = (used ≥ max_requests)`. -/
theorem C6_get_client_status (rl : RateLimiter) (c : String) (now : ℚ) :
    (getClientStatus rl c now).1.requests_used = (specTrim rl c now).length ∧
    (getClientStatus rl c now).1.requests_remaining =
      max 0 (rl.max_requests - (specTrim rl c now).length) ∧
    (getClientStatus rl c now).1.max_requests = rl.max_requests ∧
    (getClientStatus rl c now).1.time_window = rl.time_window ∧
    (getClientStatus rl c now).1.reset_time =
      (specTrim rl c now).head?.map (fun t => t + rl.time_window) ∧
    (getClientStatus rl c now).1.is_limited =
      decide (rl.max_requests ≤ ((specTrim rl c now).length : Int)) ∧
    lookupEntry (getClientStatus rl c now).2.request_history c =
      some (specTrim rl c now) := by
  have hd : postTrim rl c now = specTrim rl c now := postTrim_eq_specTrim rl c now
  refine ⟨?_, ?_, rfl, rfl, ?_, ?_, ?_⟩
  · show (postTrim rl c now).length = _
    rw [hd]
  · show max 0 (rl.max_requests - (postTrim rl c now).length) = _
    rw [hd]
  · show (postTrim rl c now).head?.map (fun t => t + rl.time_window) = _
    rw [hd]
  · show decide (rl.max_requests ≤ ((postTrim rl c now).length : Int)) = _
    rw [hd]
  · rw [getClientStatus_snd]
    dsimp only
    rw [lookupEntry_setEntry_self, hd]

/-- C7: `reset_client` returns `true` exactly when the client was tracked,
removes the client's whole history, and (for a positive request limit) the
immediately following `allow_request` for that client is admitted; on an
unseen client it returns `false` and changes nothing. -/
theorem C7_reset_client (rl : RateLimiter) (c : String) (now : ℚ)
    (hpos : 0 < rl.max_requests) :
    (resetClient rl c).1 = (lookupEntry rl.request_history c).isSome ∧
    lookupEntry (resetClient rl c).2.request_history c = none ∧
    (allowRequest (resetClient rl c).2 c now).1 = true := by
  have hmax : (resetClient rl c).2.max_requests = rl.max_requests := by
    unfold resetClient
    split <;> rfl
  have hafter : lookupEntry (resetClient rl c).2.request_history c = none := by
    unfold resetClient
    cases hs : (lookupEntry rl.request_history c).isSome
    · have h0 : lookupEntry rl.request_history c = none :=
        Option.not_isSome_iff_eq_none.mp (by simp [hs])
      simp [h0]
    · simp [lookupEntry_eraseEntry_self]
  refine ⟨?_, hafter, ?_⟩
  · unfold resetClient
    cases hs : (lookupEntry rl.request_history c).isSome <;> simp
  · rw [allowRequest_eq]
    show decide (((postTrim (resetClient rl c).2 c now).length : Int) <
      (resetClient rl c).2.max_requests) = true
    rw [decide_eq_true_iff]
    have hent : clientEntry (resetClient rl c).2 c = [] := by
      unfold clientEntry
      rw [hafter]
      rfl
    unfold postTrim
    rw [hent, hmax]
    simpa [trimOld] using hpos

/-- Concrete run of C7: a client at its limit is admitted again right after
a successful reset. -/
theorem C7_reset_client_witness :
    (allowRequest (resetClient ⟨1, 10, [("a", [(0:ℚ)])]⟩ "a").2 "a" 5).1 = true :=
  (C7_reset_client ⟨1, 10, [("a", [(0:ℚ)])]⟩ "a" 5 (by decide)).2.2

/-- C4: `set_client_tier` with an unregistered tier name raises the
unknown-tier error and leaves the whole state (in particular the
client-to-tier mapping) unchanged; with a registered name it records the
mapping for that client, overwriting any prior assignment, without touching
other clients' assignments. -/
theorem C4_set_client_tier (arl : AdvancedRateLimiter) (c name : String) :
    (lookupEntry arl.limiters name = none →
      setClientTier arl c name =
        (Except.error (LimiterError.unknownTier name), arl)) ∧
    (∀ lim, lookupEntry arl.limiters name = some lim →
      (setClientTier arl c name).1 = Except.ok () ∧
      lookupEntry (setClientTier arl c name).2.client_tiers c = some name ∧
      ∀ c', c' ≠ c →
        lookupEntry (setClientTier arl c name).2.client_tiers c' =
          lookupEntry arl.client_tiers c') := by
  constructor
  · intro h
    simp [setClientTier, h]
  · intro lim h
    refine ⟨?_, ?_, ?_⟩
    · simp [setClientTier, h]
    · simp only [setClientTier, h, Option.isSome_some, if_true]
      exact lookupEntry_setEntry_self _ _ _
    · intro c' hc'
      simp only [setClientTier, h, Option.isSome_some, if_true]
      exact lookupEntry_setEntry_ne _ _ _ _ (Ne.symm hc')

/-- Concrete run of C4: assigning a never-registered tier errors and leaves
the mapping untouched; after registering the tier the assignment lands. -/
theorem C4_set_client_tier_witness :
    setClientTier initAdvanced "alice" "premium" =
      (Except.error (LimiterError.unknownTier "premium"), initAdvanced) ∧
    lookupEntry (setClientTier (addTier initAdvanced "premium" 100 60)
      "alice" "premium").2.client_tiers "alice" = some "premium" := by
  constructor
  · exact (C4_set_client_tier initAdvanced "alice" "premium").1 rfl
  · exact ((C4_set_client_tier (addTier initAdvanced "premium" 100 60)
      "alice" "premium").2 (initRateLimiter 100 60) rfl).2.1

/-- C5: a client with no tier assignment resolves to the `"default"` tier;
when that tier is unregistered it is lazily registered with the fallback
60-requests-per-60-seconds policy; the call then returns exactly what that
tier's limiter's `allow_request` returns, and the (possibly fresh) default
tier limiter's successor state is stored back. -/
theorem C5_default_tier_fallback (arl : AdvancedRateLimiter) (c : String)
    (now : ℚ) (h : lookupEntry arl.client_tiers c = none) :
    (advAllowRequest arl c now).1 =
      Except.ok (allowRequest ((lookupEntry arl.limiters "default").getD
        (initRateLimiter 60 60)) c now).1 ∧
    lookupEntry (advAllowRequest arl c now).2.limiters "default" =
      some (allowRequest ((lookupEntry arl.limiters "default").getD
        (initRateLimiter 60 60)) c now).2 := by
  cases hd : lookupEntry arl.limiters "default" with
  | none =>
      have hlook : lookupEntry (addTier arl "default" 60 60).limiters "default" =
          some (initRateLimiter 60 60) := lookupEntry_setEntry_self _ _ _
      constructor
      · simp [advAllowRequest, h, hd, hlook]
      · simp only [advAllowRequest, h, Option.getD_none, hd, Option.isSome_none,
          Bool.false_eq_true, if_false, hlook]
        exact lookupEntry_setEntry_self _ _ _
  | some lim =>
      constructor
      · simp [advAllowRequest, h, hd]
      · simp only [advAllowRequest, h, Option.getD_none, hd, Option.isSome_some,
          if_true, Option.getD_some]
        exact lookupEntry_setEntry_self _ _ _

/-- Concrete run of C5: a fresh tiered limiter admits an unassigned client
through the lazily created 60/60 default tier. -/
theorem C5_default_tier_fallback_witness :
    (advAllowRequest initAdvanced "eve" 0).1 =
      Except.ok (allowRequest ((lookupEntry initAdvanced.limiters "default").getD
        (initRateLimiter 60 60)) "eve" 0).1 ∧
    lookupEntry (advAllowRequest initAdvanced "eve" 0).2.limiters "default" =
      some (allowRequest ((lookupEntry initAdvanced.limiters "default").getD
        (initRateLimiter 60 60)) "eve" 0).2 :=
  C5_default_tier_fallback initAdvanced "eve" 0 rfl

section CleanupLemmas

/-- In a map with unique keys (the dictionary situation), equal keys mean
equal entries. -/
theorem eq_of_fst_eq_of_nodup {α : Type} {l : List (String × α)}
    (hnd : (l.map Prod.fst).Nodup) {p q : String × α}
    (hp : p ∈ l) (hq : q ∈ l) (heq : p.1 = q.1) : p = q := by
  induction l with
  | nil => simp at hp
  | cons r rest ih =>
      rw [List.map_cons, List.nodup_cons] at hnd
      obtain ⟨hr, hnd'⟩ := hnd
      rcases List.mem_cons.mp hp with h1 | h1 <;>
        rcases List.mem_cons.mp hq with h2 | h2
      · rw [h1, h2]
      · exact absurd (heq ▸ List.mem_map_of_mem Prod.fst h2) (h1 ▸ hr)
      · exact absurd (heq ▸ List.mem_map_of_mem Prod.fst h1) (h2 ▸ hr)
      · exact ih hnd' h1 h2

end CleanupLemmas

/-- C8: `cleanup_old_entries` trims every tracked client's stale timestamps
and deletes exactly the clients whose sequence became empty; in particular,
when the current time exceeds every stored timestamp by more than the
window, the tracking map is empty afterwards and `get_stats` then reports
zero total clients. -/
theorem C8_cleanup_old_entries (rl : RateLimiter) (now : ℚ) :
    ((rl.request_history.map Prod.fst).Nodup →
      (cleanupOldEntries rl now).request_history =
        (rl.request_history.map
          (fun p => (p.1, trimOld (now - rl.time_window) p.2))).filter
          (fun p => !p.2.isEmpty)) ∧
    ((∀ p ∈ rl.request_history, ∀ t ∈ p.2, now - rl.time_window > t) →
      (cleanupOldEntries rl now).request_history = [] ∧
      (getStats (cleanupOldEntries rl now) now).1.total_clients = 0) := by
  constructor
  · intro hnd
    unfold cleanupOldEntries
    dsimp only
    apply List.filter_congr
    intro p hp
    have hkeys : ((rl.request_history.map
        (fun p => (p.1, trimOld (now - rl.time_window) p.2))).map Prod.fst).Nodup := by
      rw [List.map_map]
      exact hnd
    rw [Bool.not_inj_iff, Bool.eq_iff_iff]
    constructor
    · intro hcon
      have hmem : p.1 ∈ (((rl.request_history.map
          (fun p => (p.1, trimOld (now - rl.time_window) p.2))).filter
          (fun p => p.2.isEmpty)).map Prod.fst) := List.elem_iff.mp hcon
      obtain ⟨q, hq, hq1⟩ := List.mem_map.mp hmem
      obtain ⟨hq2, hq3⟩ := List.mem_filter.mp hq
      have : p = q := eq_of_fst_eq_of_nodup hkeys hp hq2 hq1.symm
      rw [this]
      exact hq3
    · intro hemp
      have hmem : p ∈ ((rl.request_history.map
          (fun p => (p.1, trimOld (now - rl.time_window) p.2))).filter
          (fun p => p.2.isEmpty)) := List.mem_filter.mpr ⟨hp, hemp⟩
      exact List.elem_iff.mpr (List.mem_map_of_mem Prod.fst hmem)
  · intro hstale
    have hempty : (cleanupOldEntries rl now).request_history = [] := by
      unfold cleanupOldEntries
      dsimp only
      rw [List.filter_eq_nil_iff]
      intro p hp
      obtain ⟨q, hq, hpq⟩ := List.mem_map.mp hp
      have hq2 : trimOld (now - rl.time_window) q.2 = [] :=
        trimOld_eq_nil _ _ (fun t ht => (hstale q hq t ht).le)
      have hp2 : p.2.isEmpty := by
        rw [← hpq]
        simp [hq2]
      have hmem : p ∈ ((rl.request_history.map
          (fun p => (p.1, trimOld (now - rl.time_window) p.2))).filter
          (fun p => p.2.isEmpty)) := List.mem_filter.mpr ⟨hp, hp2⟩
      have hcon : (((rl.request_history.map
          (fun p => (p.1, trimOld (now - rl.time_window) p.2))).filter
          (fun p => p.2.isEmpty)).map Prod.fst).contains p.1 = true :=
        List.elem_iff.mpr (List.mem_map_of_mem Prod.fst hmem)
      intro hbad
      simp only [Bool.not_eq_true'] at hbad
      rw [hcon] at hbad
      exact Bool.noConfusion hbad
    refine ⟨hempty, ?_⟩
    show (cleanupOldEntries rl now).request_history.length = 0
    rw [hempty]
    rfl

/-- Concrete run of C8: with every timestamp stale, cleanup empties the map
and the stats snapshot reports zero clients; the per-client trim-and-drop
shape also holds. -/
theorem C8_cleanup_old_entries_witness :
    ((cleanupOldEntries ⟨2, 10, [("a", [(0:ℚ)]), ("b", [1])]⟩ 100).request_history =
      (((⟨2, 10, [("a", [(0:ℚ)]), ("b", [1])]⟩ : RateLimiter).request_history.map
        (fun p => (p.1, trimOld (100 - (10:ℚ)) p.2))).filter (fun p => !p.2.isEmpty))) ∧
    (cleanupOldEntries ⟨2, 10, [("a", [(0:ℚ)]), ("b", [1])]⟩ 100).request_history = [] ∧
    (getStats (cleanupOldEntries ⟨2, 10, [("a", [(0:ℚ)]), ("b", [1])]⟩ 100) 100).1.total_clients = 0 :=
  ⟨(C8_cleanup_old_entries ⟨2, 10, [("a", [(0:ℚ)]), ("b", [1])]⟩ 100).1 (by decide),
   (C8_cleanup_old_entries ⟨2, 10, [("a", [(0:ℚ)]), ("b", [1])]⟩ 100).2 (by norm_num)⟩

section StatsLemmas

/-- Unrolling the active/limited counting loop of `get_stats`. -/
theorem statsFold_eq (rl : RateLimiter) (now : ℚ)
    (l : List (String × List ℚ)) (a b : Nat) :
    l.foldl (fun acc p => statsStep rl now acc p.2) (a, b) =
      (a + l.countP (fun p =>
        !(p.2.filter (fun r => decide (now - rl.time_window < r))).isEmpty),
       b + l.countP (fun p =>
        (!(p.2.filter (fun r => decide (now - rl.time_window < r))).isEmpty) &&
        decide (rl.max_requests ≤
          ((p.2.filter (fun r => decide (now - rl.time_window < r))).length : Int)))) := by
  induction l generalizing a b with
  | nil => simp
  | cons p rest ih =>
      rw [List.foldl_cons, List.countP_cons, List.countP_cons]
      by_cases h1 : (p.2.filter (fun r => decide (now - rl.time_window < r))).isEmpty = true
      · have hstep : statsStep rl now (a, b) p.2 = (a, b) := by
          simp [statsStep, h1]
        rw [hstep, ih]
        simp [h1]
      · have h1' : (p.2.filter (fun r => decide (now - rl.time_window < r))).isEmpty = false :=
          Bool.eq_false_iff.mpr h1
        by_cases h2 : rl.max_requests ≤
            ((p.2.filter (fun r => decide (now - rl.time_window < r))).length : Int)
        · have hstep : statsStep rl now (a, b) p.2 = (a + 1, b + 1) := by
            simp [statsStep, h1, h2]
          rw [hstep, ih]
          simp [h1', h2, Prod.ext_iff]
          omega
        · have hstep : statsStep rl now (a, b) p.2 = (a + 1, b) := by
            simp [statsStep, h1, h2]
          rw [hstep, ih]
          simp [h1', h2, Prod.ext_iff]
          omega

end StatsLemmas

/-- C9: `get_stats` is a pure snapshot: the state is completely unchanged
(no trimming), the total client and request counts range over everything
still stored (stale entries included), while the active and limited counts
are computed only over timestamps strictly newer than `now - window`. -/
theorem C9_get_stats_snapshot (rl : RateLimiter) (now : ℚ) :
    (getStats rl now).2 = rl ∧
    (getStats rl now).1.total_clients = rl.request_history.length ∧
    (getStats rl now).1.total_requests_tracked =
      (rl.request_history.map (fun p => p.2.length)).sum ∧
    (getStats rl now).1.active_clients =
      rl.request_history.countP (fun p =>
        !(p.2.filter (fun r => decide (now - rl.time_window < r))).isEmpty) ∧
    (getStats rl now).1.limited_clients =
      rl.request_history.countP (fun p =>
        (!(p.2.filter (fun r => decide (now - rl.time_window < r))).isEmpty) &&
        decide (rl.max_requests ≤
          ((p.2.filter (fun r => decide (now - rl.time_window < r))).length : Int))) := by
  refine ⟨rfl, rfl, rfl, ?_, ?_⟩
  · show (rl.request_history.foldl (fun acc p => statsStep rl now acc p.2) (0, 0)).1 = _
    rw [statsFold_eq]
    simp
  · show (rl.request_history.foldl (fun acc p => statsStep rl now acc p.2) (0, 0)).2 = _
    rw [statsFold_eq]
    simp

section InvariantLemmas

/-- The trimmed entry is no longer than the bound that held for the stored
entries (an unseen client's entry is empty). -/
theorem postTrim_length_bound (rl : RateLimiter) (c : String) (now : ℚ)
    (ih : ∀ p ∈ rl.request_history, (p.2.length : Int) ≤ max rl.max_requests 0) :
    ((postTrim rl c now).length : Int) ≤ max rl.max_requests 0 := by
  have hle : (postTrim rl c now).length ≤ (clientEntry rl c).length :=
    trimOld_length_le _ _
  cases hlook : lookupEntry rl.request_history c with
  | none =>
      have hE : clientEntry rl c = [] := by
        unfold clientEntry
        rw [hlook]
        rfl
      unfold postTrim
      rw [hE]
      simp [trimOld]
  | some v =>
      have hv := ih (c, v) (lookupEntry_mem hlook)
      have hE : clientEntry rl c = v := by
        unfold clientEntry
        rw [hlook]
        rfl
      rw [hE] at hle
      calc ((postTrim rl c now).length : Int) ≤ (v.length : Int) := by exact_mod_cast hle
        _ ≤ max rl.max_requests 0 := hv

theorem getStats_snd (rl : RateLimiter) (now : ℚ) : (getStats rl now).2 = rl :=
  rfl

end InvariantLemmas

/-- C10: every state reachable from a fresh limiter through any sequence of
public operations keeps every tracked client's stored sequence at length at
most `max(max_requests, 0)`: `allow_request` is the only appending
operation and appends only strictly below the limit, so per-client memory
stays bounded even when `cleanup_old_entries` is never called. -/
theorem C10_bounded_entries (m : Int) (w : ℚ) (rl : RateLimiter)
    (h : RLReachable m w rl) :
    ∀ p ∈ rl.request_history, (p.2.length : Int) ≤ max rl.max_requests 0 := by
  induction h with
  | init =>
      intro p hp
      simp [initRateLimiter] at hp
  | @step rl0 rl1 hr hstep ih =>
      cases hstep with
      | allow c now =>
          intro p hp
          rw [allowRequest_max]
          rw [allowRequest_eq] at hp
          dsimp only at hp
          rcases mem_setEntry hp with h1 | h1
          · have hb : ((newEntry rl0 c now).length : Int) ≤ max rl0.max_requests 0 := by
              unfold newEntry
              by_cases hadm : ((postTrim rl0 c now).length : Int) < rl0.max_requests
              · rw [if_pos hadm]
                have hlen1 : ((postTrim rl0 c now ++ [now]).length : Int) =
                    ((postTrim rl0 c now).length : Int) + 1 := by
                  rw [List.length_append, List.length_singleton]
                  push_cast
                  ring
                rw [hlen1]
                exact le_trans (Int.lt_iff_add_one_le.mp hadm) (le_max_left _ _)
              · rw [if_neg hadm]
                exact postTrim_length_bound rl0 c now ih
            rw [h1]
            exact hb
          · exact ih p h1
      | status c now =>
          rw [getClientStatus_snd]
          intro p hp
          dsimp only at hp ⊢
          rcases mem_setEntry hp with h1 | h1
          · rw [h1]
            exact postTrim_length_bound rl0 c now ih
          · exact ih p h1
      | reset c =>
          have hmax : (resetClient rl0 c).2.max_requests = rl0.max_requests := by
            unfold resetClient
            split <;> rfl
          have hsub : ∀ p ∈ (resetClient rl0 c).2.request_history,
              p ∈ rl0.request_history := by
            unfold resetClient
            split
            · intro p hp
              unfold eraseEntry at hp
              exact (List.mem_filter.mp hp).1
            · intro p hp
              exact hp
          intro p hp
          rw [hmax]
          exact ih p (hsub p hp)
      | cleanup now =>
          unfold cleanupOldEntries
          dsimp only
          intro p hp
          have hp2 := (List.mem_filter.mp hp).1
          obtain ⟨q, hq, hpq⟩ := List.mem_map.mp hp2
          have hb := ih q hq
          rw [← hpq]
          dsimp only
          have h1 : ((trimOld (now - rl0.time_window) q.2).length : Int) ≤ (q.2.length : Int) := by
            exact_mod_cast trimOld_length_le (now - rl0.time_window) q.2
          exact le_trans h1 hb
      | stats now =>
          rw [getStats_snd]
          exact ih

/-- Concrete run of C10: after one admitted request the stored entry has
length within the bound. -/
theorem C10_bounded_entries_witness :
    ((("a", [(0:ℚ)]) : String × List ℚ).2.length : Int) ≤
      max (allowRequest (initRateLimiter 2 10) "a" 0).2.max_requests 0 := by
  have hmem : ("a", [(0:ℚ)]) ∈ (allowRequest (initRateLimiter 2 10) "a" 0).2.request_history := by
    rw [allowRequest_eq]
    dsimp only
    have h2 : postTrim (initRateLimiter 2 10) "a" 0 = [] := rfl
    have h3 : newEntry (initRateLimiter 2 10) "a" 0 = [0] := by
      unfold newEntry
      rw [h2]
      norm_num [initRateLimiter]
    rw [h3]
    show ("a", [(0:ℚ)]) ∈ setEntry [] "a" [0]
    simp [setEntry]
  exact C10_bounded_entries 2 10 _
    (RLReachable.step RLReachable.init (RLStep.allow (initRateLimiter 2 10) "a" 0))
    ("a", [(0:ℚ)]) hmem

/-- C1: run any chronologically ordered multi-client trace of
`allow_request` calls against a freshly constructed limiter with
`max_requests > 0` and `window > 0`; any single client's admitted call
times number at most `max_requests` inside any window `[a, a + window)` of
`window` consecutive time, regardless of the call pattern. -/
theorem C1_bounded_admission (m : Int) (W : ℚ) (tr : List (String × ℚ))
    (c : String) (a : ℚ) (hm : 0 < m) (hW : 0 < W)
    (hmono : tr.Pairwise (fun e f => e.2 ≤ f.2)) :
    (admittedTimes c (runTrace (initRateLimiter m W) tr).2).countP
      (fun s => decide (a ≤ s ∧ s < a + W)) ≤ m.toNat := by
  have hG := runTrace_goodSplits W m.toNat tr (initRateLimiter m W) c [] []
    ((Int.toNat_of_nonneg hm.le).symm) rfl hmono rfl (by simp)
    (goodSplits_nil W m.toNat)
  exact countP_window_le W a m.toNat _ hG

/-- Concrete run of C1: with limit 2 per 10 seconds, a burst at 0, 5, 9, 11
admits at most 2 calls inside the window starting at 0. -/
theorem C1_bounded_admission_witness :
    (admittedTimes "a" (runTrace (initRateLimiter 2 10)
      [("a", 0), ("a", 5), ("a", 9), ("a", 11)]).2).countP
      (fun s => decide ((0:ℚ) ≤ s ∧ s < 0 + 10)) ≤ (2:Int).toNat :=
  C1_bounded_admission 2 10 [("a", 0), ("a", 5), ("a", 9), ("a", 11)] "a" 0
    (by norm_num) (by norm_num) (by norm_num [List.pairwise_cons])

end RateLimiterModel
